import Mathlib

/-!
Shallow embedding of the Solana vanity-address generator
(src/main.rs, src/vanity.rs) together with proofs about its
pattern matcher, validators, cost estimator, duration formatter and the
shared state of the parallel search.

Strings are modelled as `List Char`; Rust's `f64` estimator arithmetic is
modelled exactly over `ℚ`; the saturating Rust cast `as u64` is modelled
with `min` against `2^64 - 1`.
-/

namespace Vanity

/-- `PatternType` from src/vanity.rs: the three match modes. -/
inductive PatternType where
  | StartsWith
  | EndsWith
  | Contains
deriving DecidableEq

/-- ASCII lowercasing of one character, as `str::to_lowercase` acts on the
base-58 identifiers handled by the program (only ASCII letters change). -/
def lowerChar (c : Char) : Char :=
  if 65 ≤ c.toNat ∧ c.toNat ≤ 90 then Char.ofNat (c.toNat + 32) else c

/-- ASCII uppercasing of one character (`str::to_uppercase` on this data). -/
def upperChar (c : Char) : Char :=
  if 97 ≤ c.toNat ∧ c.toNat ≤ 122 then Char.ofNat (c.toNat - 32) else c

/-- `to_lowercase` on a whole string. -/
def toLowercase (s : List Char) : List Char := s.map lowerChar

/-- `to_uppercase` on a whole string. -/
def toUppercase (s : List Char) : List Char := s.map upperChar

/-- Rust `str::contains`: does `pat` occur in `key` as a contiguous
substring? -/
def containsSub : List Char → List Char → Bool
  | [], pat => pat.isPrefixOf []
  | a :: t, pat => pat.isPrefixOf (a :: t) || containsSub t pat

/-- `VanityGenerator::matches_pattern_static` (src/vanity.rs:207-219). -/
def matches_pattern_static (public_key pattern : List Char)
    (pattern_type : PatternType) (case_sensitive : Bool) : Bool :=
  let key := if case_sensitive then public_key else toLowercase public_key
  let pat := if case_sensitive then pattern else toLowercase pattern
  match pattern_type with
  | .StartsWith => pat.isPrefixOf key
  | .EndsWith => pat.isSuffixOf key
  | .Contains => containsSub key pat

/-- The four characters excluded from the base-58 alphabet
(src/vanity.rs:301, 308). -/
def invalid_chars : List Char := ['0', 'O', 'I', 'l']

/-- `is_valid_base58_pattern` (src/vanity.rs:299-303). -/
def is_valid_base58_pattern (pattern : List Char) : Bool :=
  !(pattern.any fun c => invalid_chars.contains c)

/-- `validate_base58_pattern` (src/vanity.rs:306-318). -/
def validate_base58_pattern (pattern : List Char) : Except (List Char) Unit :=
  let found_invalid := pattern.filter fun c => invalid_chars.contains c
  if found_invalid.isEmpty then Except.ok () else Except.error found_invalid

/-- `get_valid_base58_chars` (src/vanity.rs:322-324): the 58-symbol target
alphabet. -/
def get_valid_base58_chars : List Char :=
  "123456789ABCDEFGHJKLMNPQRSTUVWXYZabcdefghijkmnopqrstuvwxyz".toList

/-- The pattern-validation gate of `main` (src/main.rs:62-84): on a validation
error the process prints diagnostics and exits before the generator is ever
invoked; only on `Ok` does control ever reach `generate_multiple_parallel`.
The search phase is abstracted as a thunk so the theorem can state that it is
never forced on the error path. -/
def mainRun {α : Type} (pattern : List Char) (search : Unit → α) :
    Except (List Char) α :=
  match validate_base58_pattern pattern with
  | Except.error invalid => Except.error invalid
  | Except.ok _ => Except.ok (search ())

/-- Base-58 alphabet size (src/vanity.rs:223). -/
def alphabet_size : ℚ := 58

/-- `VanityGenerator::estimate_probability` (src/vanity.rs:222-237), with the
`f64` arithmetic carried out exactly over `ℚ` (all the operations involved are
exact on these operands up to `f64` rounding, which plays no role in the
properties proved here). -/
def estimate_probability (pattern : List Char) (case_sensitive : Bool) : ℚ :=
  let pattern_length := pattern.length
  let base_probability := 1 / alphabet_size ^ pattern_length
  if !case_sensitive then
    let case_variations : ℚ := 2 ^ pattern_length
    base_probability * min case_variations alphabet_size
  else
    base_probability

/-- `u64::MAX`. -/
def u64_MAX : ℕ := 2 ^ 64 - 1

/-- `VanityGenerator::estimate_expected_attempts` (src/vanity.rs:240-247).
Rust's float-to-integer cast `as u64` saturates at the bounds of the target
type, hence the `min` with `u64_MAX`; a positive ceiling is nonnegative, so
`Int.toNat` is exact on it. -/
def estimate_expected_attempts (pattern : List Char) (case_sensitive : Bool) :
    ℕ :=
  let probability := estimate_probability pattern case_sensitive
  if 0 < probability then min (Int.toNat ⌈1 / probability⌉) u64_MAX
  else u64_MAX

/-- `VanityGenerator::format_duration` (src/vanity.rs:262-294), on the whole
number of seconds of the duration (`Duration::as_secs`). -/
def format_duration (total_seconds : ℕ) : String :=
  if total_seconds < 1 then
    "< 1 second"
  else if total_seconds < 60 then
    toString total_seconds ++ " seconds"
  else if total_seconds < 3600 then
    let minutes := total_seconds / 60
    let seconds := total_seconds % 60
    if seconds = 0 then toString minutes ++ " minutes"
    else toString minutes ++ "m " ++ toString seconds ++ "s"
  else if total_seconds < 86400 then
    let hours := total_seconds / 3600
    let minutes := (total_seconds % 3600) / 60
    if minutes = 0 then toString hours ++ " hours"
    else toString hours ++ "h " ++ toString minutes ++ "m"
  else
    let days := total_seconds / 86400
    let hours := (total_seconds % 86400) / 3600
    if hours = 0 then toString days ++ " days"
    else toString days ++ "d " ++ toString hours ++ "h"

/-- `VanityResult` (src/vanity.rs:39-45); durations are wall-clock samples
measured in abstract ticks. -/
structure VanityResult where
  public_key : List Char
  private_key : List Char
  attempts : ℕ
  time_elapsed : ℕ
deriving DecidableEq

/-- The shared state of `generate_multiple_parallel` (src/vanity.rs:95-97):
the mutex-guarded result vector, the atomic stop flag and the atomic total
attempt counter. -/
structure SearchState where
  results : List VanityResult
  stop_flag : Bool
  total_attempts : ℕ
deriving DecidableEq

/-- The shared state as initialised at src/vanity.rs:95-97. -/
def initState : SearchState :=
  { results := [], stop_flag := false, total_attempts := 0 }

/-- The critical section at src/vanity.rs:156-166, executed under the result
mutex: push the found result only if capacity remains, and raise the stop flag
once the vector has reached the requested count. -/
def commitResult (count : ℕ) (r : VanityResult) (s : SearchState) :
    SearchState :=
  if s.results.length < count then
    let results := s.results ++ [r]
    { s with
      results := results
      stop_flag := if count ≤ results.length then true else s.stop_flag }
  else s

/-- One mutation of the shared search state by some worker: either the locked
commit of a found result (src/vanity.rs:156-166) or a flush of a local attempt
count into the shared atomic counter (src/vanity.rs:170-171 and 183). All
other worker activity only reads the shared state. -/
inductive Step (count : ℕ) : SearchState → SearchState → Prop where
  | commit (r : VanityResult) (s : SearchState) :
      Step count s (commitResult count r s)
  | flush (n : ℕ) (s : SearchState) :
      Step count s { s with total_attempts := s.total_attempts + n }

/-- States the shared search state can be in during a parallel search for
`count` results. -/
def Reachable (count : ℕ) (s : SearchState) : Prop :=
  Relation.ReflTransGen (Step count) initState s

/-- One worker task of `generate_multiple_parallel` (src/vanity.rs:117-184),
run to exhaustion of `fuel` iterations. `cands g` is the public key of the
`g`-th keypair produced by the worker's RNG, `priv g` its base-58-encoded
secret bytes, and `elapsed g` the worker-local wall-clock reading after `g`
candidates. The loop-top exit checks (stop flag, deadline, result count,
src/vanity.rs:122-138) only decide whether the worker keeps iterating and
never alter a result it does build, so the model iterates unconditionally and
collects every `VanityResult` constructed at src/vanity.rs:148-153, including
the periodic flush that resets `local_attempts` (src/vanity.rs:170-172). -/
def workerRun (cands : ℕ → List Char) (priv : ℕ → List Char)
    (elapsed : ℕ → ℕ) (pattern : List Char) (pattern_type : PatternType)
    (case_sensitive : Bool) :
    ℕ → ℕ → ℕ → List VanityResult
  | 0, _, _ => []
  | fuel + 1, g, local_attempts =>
    let local' := local_attempts + 1
    let public_key := cands g
    let rest := workerRun cands priv elapsed pattern pattern_type
      case_sensitive fuel (g + 1) (if local' % 1000 = 0 then 0 else local')
    if matches_pattern_static public_key pattern pattern_type case_sensitive
    then
      { public_key := public_key
        private_key := priv g
        attempts := local'
        time_elapsed := elapsed (g + 1) } :: rest
    else rest

/-! ### Lemmas about the pattern matcher -/

/-- The naive substring scan of `containsSub` decides the contiguous-substring
relation. -/
theorem containsSub_iff (key pat : List Char) :
    containsSub key pat = true ↔ pat <:+: key := by
  induction key with
  | nil =>
    simp [containsSub, List.isPrefixOf_iff_prefix, List.infix_nil]
  | cons a t ih =>
    simp [containsSub, List.isPrefixOf_iff_prefix, ih, List.infix_cons_iff]

/-- Claim C3: with `case_sensitive = true`, StartsWith holds iff the first
`len(P)` characters of the candidate equal the pattern exactly, EndsWith holds
iff the pattern is a suffix of the candidate, Contains holds iff the pattern
occurs as a contiguous substring, and the empty pattern matches every
candidate under every mode and either case policy. -/
theorem matches_pattern_static_modes (C P : List Char) :
    (matches_pattern_static C P PatternType.StartsWith true = true ↔
      C.take P.length = P) ∧
    (matches_pattern_static C P PatternType.EndsWith true = true ↔
      P <:+ C) ∧
    (matches_pattern_static C P PatternType.Contains true = true ↔
      P <:+: C) ∧
    (∀ (pt : PatternType) (cs : Bool),
      matches_pattern_static C [] pt cs = true) := by
  refine ⟨?_, ?_, ?_, ?_⟩
  · rw [show (C.take P.length = P) ↔ (P = C.take P.length) from eq_comm,
      ← List.prefix_iff_eq_take]
    simp [matches_pattern_static, List.isPrefixOf_iff_prefix]
  · simp [matches_pattern_static, List.isSuffixOf_iff_suffix]
  · simp [matches_pattern_static, containsSub_iff]
  · intro pt cs
    cases pt <;> cases cs <;>
      simp [matches_pattern_static, toLowercase, containsSub_iff,
        List.isPrefixOf_iff_prefix, List.isSuffixOf_iff_suffix]

/-! ### Validation -/

/-- Claim C10: the boolean validator and the reporting validator agree on
every pattern, and both accept the empty pattern. -/
theorem validators_agree (p : List Char) :
    (is_valid_base58_pattern p = true ↔
      validate_base58_pattern p = Except.ok ()) ∧
    is_valid_base58_pattern [] = true ∧
    validate_base58_pattern [] = Except.ok () := by
  refine ⟨?_, rfl, rfl⟩
  by_cases hemp : (p.filter fun c => invalid_chars.contains c) = []
  · have hany : (p.any fun c => invalid_chars.contains c) = false := by
      rw [List.any_eq_false]
      intro c hc
      simpa using (List.filter_eq_nil_iff.mp hemp) c hc
    simp [is_valid_base58_pattern, validate_base58_pattern, hany, hemp]
  · have hany : (p.any fun c => invalid_chars.contains c) = true := by
      rw [List.any_eq_true]
      obtain ⟨c, hc⟩ := List.exists_mem_of_ne_nil _ hemp
      exact ⟨c, (List.mem_filter.mp hc).1, (List.mem_filter.mp hc).2⟩
    simp [is_valid_base58_pattern, validate_base58_pattern, hany,
      List.isEmpty_iff, hemp]

/-- Claim C9: a pattern containing an excluded character is rejected, and the
reported character list keeps every occurrence of every offending character
(the occurrence counts of `0`, `O`, `I`, `l` in the report equal those in the
pattern). -/
theorem validate_reports_all_occurrences (p : List Char)
    (h : ∃ c ∈ p, c ∈ invalid_chars) :
    ∃ l, validate_base58_pattern p = Except.error l ∧
      ∀ c ∈ invalid_chars, l.count c = p.count c := by
  obtain ⟨c, hcp, hcinv⟩ := h
  refine ⟨p.filter fun x => invalid_chars.contains x, ?_, ?_⟩
  · have hmem : c ∈ p.filter fun x => invalid_chars.contains x :=
      List.mem_filter.mpr ⟨hcp, by simpa using hcinv⟩
    have hnotemp :
        ¬((p.filter fun x => invalid_chars.contains x).isEmpty = true) := by
      rw [List.isEmpty_iff]
      exact List.ne_nil_of_mem hmem
    show (if (p.filter fun x => invalid_chars.contains x).isEmpty then
        Except.ok () else
        Except.error (p.filter fun x => invalid_chars.contains x)) =
      Except.error (p.filter fun x => invalid_chars.contains x)
    rw [if_neg hnotemp]
  · intro d hd
    exact List.count_filter (by simpa using hd)

/-- Claim C9 witness: the pattern `AB0Ol` is rejected with every occurrence
of `0`, `O` and `l` reported. -/
theorem validate_reports_all_occurrences_witness :
    ∃ l, validate_base58_pattern ['A', 'B', '0', 'O', 'l'] =
        Except.error l ∧
      ∀ c ∈ invalid_chars,
        l.count c = (['A', 'B', '0', 'O', 'l'] : List Char).count c :=
  validate_reports_all_occurrences _ ⟨'0', by decide, by decide⟩

/-- Claim C4 (amended): a pattern containing one of the four excluded
characters `0`, `O`, `I`, `l` — the only characters validation actually
checks for — makes `main`'s validation gate return the InvalidPattern error
before the search thunk is ever forced, so no worker is launched; the
reported character list is nonempty. -/
theorem invalid_pattern_blocks_search (p : List Char) (c : Char)
    (hcp : c ∈ p) (hcinv : c ∈ invalid_chars) :
    ∀ {α : Type} (search : Unit → α),
      mainRun p search =
        Except.error (p.filter fun x => invalid_chars.contains x) ∧
      (p.filter fun x => invalid_chars.contains x) ≠ [] := by
  intro α search
  have hmem : c ∈ p.filter fun x => invalid_chars.contains x :=
    List.mem_filter.mpr ⟨hcp, by simpa using hcinv⟩
  have hne := List.ne_nil_of_mem hmem
  have hnotemp :
      ¬((p.filter fun x => invalid_chars.contains x).isEmpty = true) := by
    rw [List.isEmpty_iff]
    exact hne
  refine ⟨?_, hne⟩
  have hval : validate_base58_pattern p =
      Except.error (p.filter fun x => invalid_chars.contains x) := by
    show (if (p.filter fun x => invalid_chars.contains x).isEmpty then
        Except.ok () else
        Except.error (p.filter fun x => invalid_chars.contains x)) =
      Except.error (p.filter fun x => invalid_chars.contains x)
    rw [if_neg hnotemp]
  show (match validate_base58_pattern p with
    | Except.error invalid => Except.error invalid
    | Except.ok _ => Except.ok (search ())) =
    Except.error (p.filter fun x => invalid_chars.contains x)
  rw [hval]

/-- Claim C4 witness: the pattern `SOL` is rejected before the search phase,
reporting the offending `O`. -/
theorem invalid_pattern_blocks_search_witness :
    mainRun ['S', 'O', 'L'] (fun _ => ()) = Except.error ['O'] ∧
      ((['S', 'O', 'L'] : List Char).filter
        fun x => invalid_chars.contains x) ≠ [] := by
  have h := invalid_pattern_blocks_search ['S', 'O', 'L'] 'O'
    (by decide) (by decide) (fun _ : Unit => ())
  refine ⟨?_, h.2⟩
  rw [h.1]
  rfl

/-- Claim C4 counterexample: the pattern `AB!` contains `!`, a character
outside the 58-symbol target alphabet, yet validation accepts it — the
validator filters only for the four excluded characters `0`, `O`, `I`, `l` —
and `main`'s gate proceeds to the search phase, forcing the search thunk and
launching the workers. -/
theorem pattern_outside_alphabet_not_blocked :
    ('!' ∈ (['A', 'B', '!'] : List Char)) ∧
    '!' ∉ get_valid_base58_chars ∧
    validate_base58_pattern ['A', 'B', '!'] = Except.ok () ∧
    mainRun ['A', 'B', '!'] (fun _ => true) = Except.ok true :=
  ⟨by decide, by decide, rfl, rfl⟩

/-! ### Cost estimator -/

/-- The probability formula exactly as the spec words it: `58^(-L)` when
case-sensitive, `58^(-L) * min(58, 2^L)` when case-insensitive. Stated
independently of `estimate_probability` so the two can be compared. -/
def estimate_probability_spec (pattern : List Char) (case_sensitive : Bool) :
    ℚ :=
  let L : ℕ := pattern.length
  if case_sensitive then (58 : ℚ) ^ (-(L : ℤ))
  else (58 : ℚ) ^ (-(L : ℤ)) * min 58 ((2 : ℚ) ^ L)

/-- Claim C5: `estimate_probability` returns `58^(-L)` for a pattern of
length `L` when case-sensitive and `58^(-L) * min(58, 2^L)` when
case-insensitive. -/
theorem estimate_probability_correct (p : List Char) (cs : Bool) :
    estimate_probability p cs = estimate_probability_spec p cs := by
  cases cs <;>
    simp [estimate_probability, estimate_probability_spec, alphabet_size,
      zpow_neg, zpow_natCast, one_div, min_comm]

/-- The probability estimate is always strictly positive: the saturation
branch of `estimate_expected_attempts` guarding against probability `0` is
never taken. -/
theorem estimate_probability_pos (p : List Char) (cs : Bool) :
    0 < estimate_probability p cs := by
  rw [estimate_probability]
  cases cs <;> simp [alphabet_size]

/-- Claim C6 counterexample: for the case-sensitive pattern `AAAAAAAAAAA`
(eleven characters) the probability is positive, yet the function does not
return `ceil(1 / probability)`: that ceiling, `58^11`, exceeds `u64::MAX`,
and the saturating cast clamps the result to `u64::MAX`. -/
theorem estimate_expected_attempts_not_ceil :
    0 < estimate_probability (List.replicate 11 'A') true ∧
    estimate_expected_attempts (List.replicate 11 'A') true = u64_MAX ∧
    estimate_expected_attempts (List.replicate 11 'A') true ≠
      Int.toNat ⌈1 / estimate_probability (List.replicate 11 'A') true⌉ := by
  have hpos := estimate_probability_pos (List.replicate 11 'A') true
  have hp : estimate_probability (List.replicate 11 'A') true =
      ((58 : ℚ) ^ (11 : ℕ))⁻¹ := by
    simp [estimate_probability, alphabet_size, one_div]
  have hinv : 1 / estimate_probability (List.replicate 11 'A') true =
      (((58 ^ 11 : ℤ) : ℚ)) := by
    rw [hp, one_div, inv_inv]
    push_cast
    ring
  have hceil : ⌈1 / estimate_probability (List.replicate 11 'A') true⌉ =
      (58 ^ 11 : ℤ) := by
    rw [hinv, Int.ceil_intCast]
  have hattempts :
      estimate_expected_attempts (List.replicate 11 'A') true = u64_MAX := by
    rw [estimate_expected_attempts]
    rw [if_pos hpos, hceil]
    rw [u64_MAX]
    decide
  refine ⟨hpos, hattempts, ?_⟩
  rw [hattempts, hceil, u64_MAX]
  decide

/-- Claim C6 as amended: `estimate_expected_attempts` returns
`min(ceil(1 / probability), u64::MAX)` — the `as u64` cast saturates not only
when the probability would be `0` (a branch that is in the code but never
taken, the probability being provably positive) but also whenever the ceiling
itself exceeds `u64::MAX` — and the result is at least `1` for every
pattern. -/
theorem estimate_expected_attempts_correct (p : List Char) (cs : Bool) :
    estimate_expected_attempts p cs =
      min (Int.toNat ⌈1 / estimate_probability p cs⌉) u64_MAX ∧
    1 ≤ estimate_expected_attempts p cs := by
  have hpos := estimate_probability_pos p cs
  have heq : estimate_expected_attempts p cs =
      min (Int.toNat ⌈1 / estimate_probability p cs⌉) u64_MAX := by
    rw [estimate_expected_attempts]
    simp [hpos]
  refine ⟨heq, ?_⟩
  rw [heq]
  have hceil : (1 : ℤ) ≤ ⌈1 / estimate_probability p cs⌉ := by
    have : (0 : ℚ) < 1 / estimate_probability p cs := by positivity
    exact Int.ceil_pos.mpr this
  refine le_min ?_ ?_
  · omega
  · rw [u64_MAX]
    norm_num

/-! ### Duration formatting -/

/-- Claim C7: `format_duration` renders every duration into exactly the
specified whole-second buckets — `< 1 second` below one second, `n seconds`
below a minute, `m`m` s`s (collapsing to `m minutes` at a zero seconds
remainder) below an hour, `h`h` m`m (collapsing to `h hours` at a zero
minutes remainder) below a day, and `d`d` h`h (collapsing to `d days` at a
zero hours remainder) otherwise — and in particular maps 0, 45, 125, 3600 and
90000 seconds to the five quoted strings. -/
theorem format_duration_buckets :
    (∀ t : ℕ, t < 1 → format_duration t = "< 1 second") ∧
    (∀ t : ℕ, 1 ≤ t → t < 60 →
      format_duration t = toString t ++ " seconds") ∧
    (∀ t : ℕ, 60 ≤ t → t < 3600 →
      format_duration t =
        if t % 60 = 0 then toString (t / 60) ++ " minutes"
        else toString (t / 60) ++ "m " ++ toString (t % 60) ++ "s") ∧
    (∀ t : ℕ, 3600 ≤ t → t < 86400 →
      format_duration t =
        if t % 3600 / 60 = 0 then toString (t / 3600) ++ " hours"
        else toString (t / 3600) ++ "h " ++
          toString (t % 3600 / 60) ++ "m") ∧
    (∀ t : ℕ, 86400 ≤ t →
      format_duration t =
        if t % 86400 / 3600 = 0 then toString (t / 86400) ++ " days"
        else toString (t / 86400) ++ "d " ++
          toString (t % 86400 / 3600) ++ "h") ∧
    format_duration 0 = "< 1 second" ∧
    format_duration 45 = "45 seconds" ∧
    format_duration 125 = "2m 5s" ∧
    format_duration 3600 = "1 hours" ∧
    format_duration 90000 = "1d 1h" := by
  refine ⟨?_, ?_, ?_, ?_, ?_, by decide, by decide, by decide, by decide,
    by decide⟩
  · intro t h1
    simp only [format_duration]
    rw [if_pos h1]
  · intro t h1 h60
    simp only [format_duration]
    rw [if_neg (by omega), if_pos h60]
  · intro t h60 h3600
    simp only [format_duration]
    rw [if_neg (by omega), if_neg (by omega), if_pos h3600]
  · intro t h3600 h86400
    simp only [format_duration]
    rw [if_neg (by omega), if_neg (by omega), if_neg (by omega),
      if_pos h86400]
  · intro t h86400
    simp only [format_duration]
    rw [if_neg (by omega), if_neg (by omega), if_neg (by omega),
      if_neg (by omega)]

/-- Claim C7 witness: the minute bucket applied at 125 seconds. -/
theorem format_duration_buckets_witness :
    format_duration 125 =
      if 125 % 60 = 0 then toString (125 / 60) ++ " minutes"
      else toString (125 / 60) ++ "m " ++ toString (125 % 60) ++ "s" :=
  format_duration_buckets.2.2.1 125 (by decide) (by decide)

/-! ### Case-insensitive matching is symmetric under case transformation -/

/-- Code points below the surrogate range survive the `Char.ofNat`
round-trip. -/
theorem toNat_ofNat_lt (n : ℕ) (h : n < 55296) : (Char.ofNat n).toNat = n := by
  simp only [Char.ofNat, Nat.isValidChar, Char.toNat, Char.ofNatAux]
  rw [dif_pos (Or.inl h)]
  rfl

/-- Lowercasing is idempotent on characters. -/
theorem lowerChar_lowerChar (c : Char) :
    lowerChar (lowerChar c) = lowerChar c := by
  by_cases h : 65 ≤ c.toNat ∧ c.toNat ≤ 90
  · have hin : lowerChar c = Char.ofNat (c.toNat + 32) := by
      rw [lowerChar, if_pos h]
    have ht : (Char.ofNat (c.toNat + 32)).toNat = c.toNat + 32 :=
      toNat_ofNat_lt _ (by omega)
    rw [hin, lowerChar, ht, if_neg (by omega)]
  · have hout : lowerChar c = c := by
      rw [lowerChar, if_neg h]
    rw [hout]
    exact hout

/-- Lowercasing an uppercased character gives its lowercase form. -/
theorem lowerChar_upperChar (c : Char) :
    lowerChar (upperChar c) = lowerChar c := by
  by_cases h : 97 ≤ c.toNat ∧ c.toNat ≤ 122
  · have hup : upperChar c = Char.ofNat (c.toNat - 32) := by
      rw [upperChar, if_pos h]
    have ht : (Char.ofNat (c.toNat - 32)).toNat = c.toNat - 32 :=
      toNat_ofNat_lt _ (by omega)
    have hlow : lowerChar c = c := by
      rw [lowerChar, if_neg (by omega)]
    rw [hup, lowerChar, ht, if_pos (by omega), hlow,
      show c.toNat - 32 + 32 = c.toNat by omega, Char.ofNat_toNat]
  · have hup : upperChar c = c := by
      rw [upperChar, if_neg h]
    rw [hup]

/-- Lowercasing a string is idempotent. -/
theorem toLowercase_toLowercase (s : List Char) :
    toLowercase (toLowercase s) = toLowercase s := by
  induction s with
  | nil => rfl
  | cons a t ih =>
    simp [toLowercase, lowerChar_lowerChar]

/-- Lowercasing an uppercased string gives its lowercase form. -/
theorem toLowercase_toUppercase (s : List Char) :
    toLowercase (toUppercase s) = toLowercase s := by
  induction s with
  | nil => rfl
  | cons a t ih =>
    simp [toLowercase, toUppercase, lowerChar_upperChar]

/-- Claim C8: case-insensitive matching is invariant under lowercasing both
the candidate and the pattern, and under uppercasing the candidate alone, in
every mode. -/
theorem matches_case_insensitive_symmetric (C P : List Char)
    (pt : PatternType) :
    matches_pattern_static C P pt false =
      matches_pattern_static (toLowercase C) (toLowercase P) pt false ∧
    matches_pattern_static C P pt false =
      matches_pattern_static (toUppercase C) P pt false := by
  constructor
  · cases pt <;>
      simp [matches_pattern_static, toLowercase_toLowercase]
  · cases pt <;>
      simp [matches_pattern_static, toLowercase_toUppercase]

/-! ### Invariants of the shared search state -/

/-- Claim C1: during a parallel search for `count` results, every reachable
shared state holds at most `count` results; no state mutation ever clears the
stop flag; any mutation that takes the result collection from below `count`
to `count` (or more) sets the stop flag in the same locked region; and hence
in every reachable state whose collection has reached a positive target the
flag is set — in particular the aggregated result vector returned at the end,
being the result field of a reachable state, has at most `count` elements. -/
theorem commitResult_length (count : ℕ) (r : VanityResult)
    (s : SearchState) :
    (commitResult count r s).results.length =
      if s.results.length < count then s.results.length + 1
      else s.results.length := by
  rw [commitResult]
  split
  · simp
  · rfl

theorem commitResult_stop (count : ℕ) (r : VanityResult) (s : SearchState) :
    (commitResult count r s).stop_flag =
      if s.results.length < count then
        (if count ≤ s.results.length + 1 then true else s.stop_flag)
      else s.stop_flag := by
  rw [commitResult]
  split
  · simp
  · rfl

theorem parallel_search_invariants (count : ℕ) :
    (∀ s, Reachable count s → s.results.length ≤ count) ∧
    (∀ s s', Step count s s' → s.stop_flag = true → s'.stop_flag = true) ∧
    (∀ s s', Step count s s' → s.results.length < count →
      count ≤ s'.results.length → s'.stop_flag = true) ∧
    (∀ s, Reachable count s → 0 < count → s.results.length = count →
      s.stop_flag = true) := by
  have key : ∀ s, Reachable count s →
      s.results.length ≤ count ∧
        (0 < count → s.results.length = count → s.stop_flag = true) := by
    intro s h
    induction h with
    | refl =>
      refine ⟨by simp [initState], ?_⟩
      intro h0 hlen
      simp [initState] at hlen
      omega
    | tail hab hstep ih =>
      rename_i b c
      cases hstep with
      | commit r =>
        by_cases hlt : b.results.length < count
        · constructor
          · rw [commitResult_length, if_pos hlt]
            omega
          · intro h0 hlen
            rw [commitResult_length, if_pos hlt] at hlen
            rw [commitResult_stop, if_pos hlt, if_pos (by omega)]
        · constructor
          · rw [commitResult_length, if_neg hlt]
            exact ih.1
          · intro h0 hlen
            rw [commitResult_length, if_neg hlt] at hlen
            rw [commitResult_stop, if_neg hlt]
            exact ih.2 h0 hlen
      | flush n =>
        exact ih
  have mono : ∀ s s', Step count s s' → s.stop_flag = true →
      s'.stop_flag = true := by
    intro s s' hstep hs
    cases hstep with
    | commit r =>
      rw [commitResult_stop]
      split
      · split
        · rfl
        · exact hs
      · exact hs
    | flush n =>
      exact hs
  have cross : ∀ s s', Step count s s' → s.results.length < count →
      count ≤ s'.results.length → s'.stop_flag = true := by
    intro s s' hstep hlt hge
    cases hstep with
    | commit r =>
      rw [commitResult_length, if_pos hlt] at hge
      rw [commitResult_stop, if_pos hlt, if_pos hge]
    | flush n =>
      change count ≤ s.results.length at hge
      omega
  exact ⟨fun s h => (key s h).1, mono, cross,
    fun s h h0 hlen => (key s h).2 h0 hlen⟩

/-- Claim C1 witness: with target count 1, committing a first result from the
initial state raises the stop flag. -/
theorem parallel_search_invariants_witness :
    (commitResult 1 ⟨[], [], 0, 0⟩ initState).stop_flag = true :=
  (parallel_search_invariants 1).2.2.1 initState _
    (Step.commit ⟨[], [], 0, 0⟩ initState) (by decide) (by decide)

/-! ### The attempts field of a worker's results -/

/-- Every result a worker builds records as `attempts` the value of the local
counter at the match, which — because the periodic flush resets that counter
every 1000 iterations — is `j % 1000 + 1` for the 0-indexed candidate `j`,
not `j + 1`. Stated for a worker whose local counter starts consistent with
its candidate index, which covers the real start `(g, local) = (0, 0)`. -/
theorem workerRun_mem (cands priv : ℕ → List Char) (elapsed : ℕ → ℕ)
    (pattern : List Char) (pt : PatternType) (cs : Bool) :
    ∀ (fuel g : ℕ) (r : VanityResult),
      r ∈ workerRun cands priv elapsed pattern pt cs fuel g (g % 1000) →
      ∃ j, g ≤ j ∧
        matches_pattern_static (cands j) pattern pt cs = true ∧
        r = ⟨cands j, priv j, j % 1000 + 1, elapsed (j + 1)⟩ := by
  intro fuel
  induction fuel with
  | zero =>
    intro g r hr
    simp [workerRun] at hr
  | succ n ih =>
    intro g r hr
    simp only [workerRun] at hr
    have hnext : (if (g % 1000 + 1) % 1000 = 0 then 0 else g % 1000 + 1) =
        (g + 1) % 1000 := by
      split <;> omega
    rw [hnext] at hr
    by_cases hm : matches_pattern_static (cands g) pattern pt cs = true
    · rw [if_pos hm] at hr
      rcases List.mem_cons.mp hr with hhead | htail
      · exact ⟨g, le_refl g, hm, hhead⟩
      · obtain ⟨j, hgj, hmj, hrj⟩ := ih (g + 1) r htail
        exact ⟨j, by omega, hmj, hrj⟩
    · rw [if_neg hm] at hr
      obtain ⟨j, hgj, hmj, hrj⟩ := ih (g + 1) r hr
      exact ⟨j, by omega, hmj, hrj⟩

/-- Claim C2 (amended): every `VanityResult` a worker produces carries
`attempts = j % 1000 + 1` where `j` is the 0-indexed position of the matching
candidate in that worker's generation sequence — the count since the last
periodic flush of the local counter (src/vanity.rs:170-172), not the total
since the worker started — together with the matching key, its private
encoding, and the elapsed-time sample taken at the match. -/
theorem worker_result_attempts (cands priv : ℕ → List Char)
    (elapsed : ℕ → ℕ) (pattern : List Char) (pt : PatternType) (cs : Bool)
    (fuel : ℕ) (r : VanityResult)
    (hr : r ∈ workerRun cands priv elapsed pattern pt cs fuel 0 0) :
    ∃ j, matches_pattern_static (cands j) pattern pt cs = true ∧
      r.public_key = cands j ∧ r.private_key = priv j ∧
      r.attempts = j % 1000 + 1 ∧ r.time_elapsed = elapsed (j + 1) := by
  obtain ⟨j, _, hmj, hrj⟩ :=
    workerRun_mem cands priv elapsed pattern pt cs fuel 0 r hr
  exact ⟨j, hmj, by rw [hrj], by rw [hrj], by rw [hrj], by rw [hrj]⟩

/-- Claim C2 witness: a worker matching on its very first candidate records
one attempt. -/
theorem worker_result_attempts_witness :
    ∃ j, matches_pattern_static ((fun _ : ℕ => (['A'] : List Char)) j)
        ['A'] PatternType.StartsWith true = true ∧
      (⟨['A'], ['B'], 1, 1⟩ : VanityResult).public_key =
        (fun _ : ℕ => (['A'] : List Char)) j ∧
      (⟨['A'], ['B'], 1, 1⟩ : VanityResult).private_key =
        (fun _ : ℕ => (['B'] : List Char)) j ∧
      (⟨['A'], ['B'], 1, 1⟩ : VanityResult).attempts = j % 1000 + 1 ∧
      (⟨['A'], ['B'], 1, 1⟩ : VanityResult).time_elapsed =
        (fun n : ℕ => n) (j + 1) :=
  worker_result_attempts (fun _ => ['A']) (fun _ => ['B']) (fun n => n)
    ['A'] PatternType.StartsWith true 1 ⟨['A'], ['B'], 1, 1⟩ (by decide)

/-- One unfolding of the worker loop. -/
theorem workerRun_succ (cands priv : ℕ → List Char) (elapsed : ℕ → ℕ)
    (pattern : List Char) (pt : PatternType) (cs : Bool)
    (fuel g local_attempts : ℕ) :
    workerRun cands priv elapsed pattern pt cs (fuel + 1) g
        local_attempts =
      if matches_pattern_static (cands g) pattern pt cs = true then
        ⟨cands g, priv g, local_attempts + 1, elapsed (g + 1)⟩ ::
          workerRun cands priv elapsed pattern pt cs fuel (g + 1)
            (if (local_attempts + 1) % 1000 = 0 then 0
             else local_attempts + 1)
      else
        workerRun cands priv elapsed pattern pt cs fuel (g + 1)
          (if (local_attempts + 1) % 1000 = 0 then 0
           else local_attempts + 1) := by
  simp only [workerRun]

/-- The run of a worker whose first matching candidate is its (0-indexed)
`k`-th: exactly one result, built at that candidate. -/
theorem workerRun_first_match (cands priv : ℕ → List Char)
    (elapsed : ℕ → ℕ) (pattern : List Char) (pt : PatternType) (cs : Bool) :
    ∀ (k g : ℕ),
      (∀ j, j < k →
        matches_pattern_static (cands (g + j)) pattern pt cs = false) →
      matches_pattern_static (cands (g + k)) pattern pt cs = true →
      workerRun cands priv elapsed pattern pt cs (k + 1) g (g % 1000) =
        [⟨cands (g + k), priv (g + k), (g + k) % 1000 + 1,
          elapsed (g + k + 1)⟩] := by
  intro k
  induction k with
  | zero =>
    intro g hno hyes
    simp only [Nat.add_zero] at hyes
    simp [workerRun, hyes]
  | succ k ih =>
    intro g hno hyes
    have h0 : matches_pattern_static (cands g) pattern pt cs = false := by
      simpa using hno 0 (by omega)
    rw [workerRun_succ]
    rw [if_neg (by simp [h0])]
    have hnext : (if (g % 1000 + 1) % 1000 = 0 then 0 else g % 1000 + 1) =
        (g + 1) % 1000 := by
      split <;> omega
    rw [hnext]
    have hno' : ∀ j, j < k →
        matches_pattern_static (cands (g + 1 + j)) pattern pt cs = false := by
      intro j hj
      have h := hno (j + 1) (by omega)
      rw [show g + (j + 1) = g + 1 + j from by omega] at h
      exact h
    have hyes' :
        matches_pattern_static (cands (g + 1 + k)) pattern pt cs = true := by
      rw [show g + 1 + k = g + (k + 1) from by omega]
      exact hyes
    rw [ih (g + 1) hno' hyes',
      show g + 1 + k = g + (k + 1) from by omega]

/-- Claim C2 counterexample: a worker whose first match is its 1001st
generated candidate registers a `FoundResult` whose `attempts` field is 1,
not 1001 — the local counter was flushed and reset to 0 after candidate
1000. -/
theorem worker_attempts_counterexample :
    ∃ r : VanityResult,
      workerRun (fun g => if g = 1000 then ['A'] else ['B'])
          (fun _ => ['C']) (fun _ => 0) ['A'] PatternType.StartsWith true
          1001 0 0 = [r] ∧
      r.attempts = 1 ∧ r.attempts ≠ 1001 := by
  refine ⟨⟨['A'], ['C'], 1, 0⟩, ?_, by decide, by decide⟩
  have h := workerRun_first_match
    (fun g => if g = 1000 then ['A'] else ['B']) (fun _ => ['C'])
    (fun _ => 0) ['A'] PatternType.StartsWith true 1000 0
    (by
      intro j hj
      show matches_pattern_static (if 0 + j = 1000 then ['A'] else ['B'])
        ['A'] PatternType.StartsWith true = false
      rw [if_neg (by omega)]
      decide)
    (by decide)
  norm_num at h
  exact h

end Vanity
